import Mathlib

/-!
# Verification of the Rubricly CV pipeline (src/backend/main.py)

Shallow embedding of the optical-mark-recognition pipeline of
src/backend/main.py.  Machine floats of the Python source are modelled as
exact rationals, NumPy boolean images as `ℕ → ℕ → Bool` functions together
with explicit height/width, and Python `int(...)` truncation as truncation
toward zero on rationals.  External collaborators (the OCR engine, the
rasterizer, scipy's rotation kernel) are modelled at their interface
boundary: their outputs are taken as inputs of the embedded functions.
-/

namespace Rubricly

/-! ## Data mapping (main.py lines 21-33): RUBRIC_MAP -/

/-- The rubric description table, `RUBRIC_MAP` of main.py lines 21-33:
for each question id, the map from score value to description text. -/
def RUBRIC_MAP : List (String × List (ℕ × String)) :=
  [("1", [(0, "Importance not addressed"), (2, "Minimally/poorly addressed"),
          (3, "Some importance established"), (4, "Project importance established"),
          (5, "Project importance well-established")]),
   ("2", [(0, "Not addressed"), (2, "Minimally/poorly addressed"),
          (3, "A few constraints given/modest quality"), (4, "Constraints sufficient/measurable list"),
          (5, "Thorough/well-defined list")]),
   ("3", [(0, "Not addressed"), (2, "Minimally/poorly addressed"),
          (3, "A few metrics/modest quality"), (4, "Sufficient/measurable list"),
          (5, "Thorough/well-defined/prioritized list")]),
   ("4", [(0, "Not addressed"), (2, "Minimally/poorly addressed"),
          (3, "Several items mentioned but not described"), (4, "Descriptive/reasonably complete"),
          (5, "Thorough/defined list with costs")]),
   ("5", [(0, "No alternatives"), (2, "Only 1-2 shown"),
          (3, "Several shown but not well described"), (4, "Sufficient list/well described"),
          (5, "Thorough/highlights features")]),
   ("6", [(0, "Not addressed"), (2, "Not clear"), (3, "Little justification"),
          (4, "Sufficient justification"), (5, "Thorough justification")]),
   ("7", [(0, "Not addressed"), (2, "Poorly prepared/justified"),
          (3, "Mediocre presentation/justification"), (4, "Sufficient presentation/justification"),
          (5, "Thorough presentation/justification")]),
   ("8", [(0, "No schedule"), (2, "Poor schedule"), (3, "Mediocre/unrealistic"),
          (4, "Sufficient presentation"), (5, "Thorough schedule")]),
   ("9", [(0, "None"), (2, "Poorly done"), (3, "Some missing"), (4, "Sufficient"),
          (5, "Thorough")]),
   ("10", [(0, "No answers/hostile"), (2, "Poorly"), (3, "Neutral"),
           (4, "Sufficiently/good understanding"), (5, "Thorough/clear/concise")]),
   ("11", [(0, "Not at all"), (2, "Poor"), (3, "Neutral"), (4, "Good"), (5, "Outstanding")])]

/-- The known rubric question ids (the keys of `RUBRIC_MAP`). -/
def rubricKeys : List String := RUBRIC_MAP.map Prod.fst

/-- Python dict lookup on an association list (first matching key). -/
def pyDictGet {β : Type} (l : List (String × β)) (k : String) : Option β :=
  (l.find? (fun p => p.1 = k)).map (fun p => p.2)

/-- `RUBRIC_MAP[q_num].get(score, "")` of main.py line 305: the description
text for a question id and an optional score, empty when unscored or when
the score value is absent from the table. -/
def rubricText (q : String) (score : Option ℕ) : String :=
  match score with
  | none => ""
  | some s =>
    match pyDictGet RUBRIC_MAP q with
    | none => ""
    | some tbl => (((tbl.find? (fun p => p.1 = s)).map (fun p => p.2)).getD "")

/-! ## Images

A binarized NumPy image (ink = `true`) with explicit shape.  Densities are
ink-pixel counts over rectangles divided by the rectangle size. -/

/-- A binarized image: `pix r c = true` means an ink pixel at row `r`,
column `c`.  Pixels outside `[0,h) × [0,w)` are never sampled by the
embedded code. -/
structure BinImg where
  h : ℕ
  w : ℕ
  pix : ℕ → ℕ → Bool

/-- Count of ink pixels in the rectangle of `rows × cols` pixels whose
top-left corner is `(y0, x0)` (NumPy `count_nonzero` over a slice). -/
def countRect (img : BinImg) (y0 x0 rows cols : ℕ) : ℕ :=
  ((List.range rows).map
    (fun i => ((List.range cols).filter (fun j => img.pix (y0 + i) (x0 + j))).length)).sum

/-- Python slice normalization: for `a[s:t]` on an axis of length `n`,
a negative bound counts from the end and both bounds clamp to `[0, n]`.
Returns the start index and the length of the slice. -/
def pySlice (s t : ℤ) (n : ℕ) : ℕ × ℕ :=
  let s' : ℕ := if s < 0 then (max 0 ((n : ℤ) + s)).toNat else min s.toNat n
  let t' : ℕ := if t < 0 then (max 0 ((n : ℤ) + t)).toNat else min t.toNat n
  (s', t' - s')

/-- Ink count and size of the 2-D slice `img[ys:yt, xs:xt]` with Python
slice semantics. -/
def sliceCountSize (img : BinImg) (ys yt xs xt : ℤ) : ℕ × ℕ :=
  let rs := pySlice ys yt img.h
  let cs := pySlice xs xt img.w
  (countRect img rs.1 cs.1 rs.2 cs.2, rs.2 * cs.2)

/-! ## Margin baseline (main.py lines 215-238) -/

/-- `calculate_margin_baseline_density` (main.py lines 215-238): ink
fraction of the four 50-pixel edge strips of the page, the page noise
floor.  The strips are concatenated, so corner pixels count several
times, exactly as in the source. -/
def calculate_margin_baseline_density (img : BinImg) : ℚ :=
  let top := sliceCountSize img 0 50 0 img.w
  let bottom := sliceCountSize img ((img.h : ℤ) - 50) img.h 0 img.w
  let left := sliceCountSize img 0 img.h 0 50
  let right := sliceCountSize img 0 img.h ((img.w : ℤ) - 50) img.w
  let count := top.1 + bottom.1 + left.1 + right.1
  let size := top.2 + bottom.2 + left.2 + right.2
  if size > 0 then (count : ℚ) / (size : ℚ) else 0

/-! ## Zone construction (main.py lines 136-168) -/

/-- Python `int(...)` on a rational: truncation toward zero
(`Int.tdiv` is T-division, exactly C/Python float-to-int truncation). -/
def pyInt (q : ℚ) : ℤ := q.num.tdiv (q.den : ℤ)

/-- The grid lines right of `0.45 * width` (main.py lines 137-138). -/
def relevant_lines (imgW : ℕ) (vlines : List ℕ) : List ℕ :=
  vlines.filter (fun l => (l : ℚ) > (imgW : ℚ) * (45 / 100))

/-- Zone rectangles `(roi_x, roi_y, roi_w, roi_h)` of
`detect_score_with_grid` (main.py lines 140-168).  With at least five
qualifying lines, consecutive line pairs bound the columns (five pixels
shaved off each side); otherwise the span from the first qualifying line
(or `int(0.45*width)`) to `int(0.95*width)` is divided into five equal
columns, each shrunk by a quarter of its width plus two pixels per side. -/
def zone_rois (imgW : ℕ) (anchor : ℕ × ℕ × ℕ × ℕ) (vlines : List ℕ) :
    List (ℤ × ℤ × ℤ × ℤ) :=
  let y := anchor.2.1
  let h := anchor.2.2.2
  let relevant := relevant_lines imgW vlines
  if relevant.length ≥ 5 then
    (List.range (min 5 (relevant.length - 1))).map (fun i =>
      let left_limit : ℤ := relevant.getD i 0
      let right_limit : ℤ := relevant.getD (i + 1) 0
      (left_limit + 5, (y : ℤ) - 10, right_limit - left_limit - 10, (h : ℤ) + 20))
  else
    let left_limit : ℚ :=
      match relevant with
      | [] => (pyInt ((imgW : ℚ) * (45 / 100)) : ℚ)
      | l :: _ => (l : ℚ)
    let right_limit : ℚ := (pyInt ((imgW : ℚ) * (95 / 100)) : ℚ)
    let col_width : ℚ := (right_limit - left_limit) / 5
    (List.range 5).map (fun i : ℕ =>
      let zone_start_x := left_limit + (i : ℚ) * col_width
      let zone_end_x := left_limit + ((i : ℚ) + 1) * col_width
      let zone_margin := (zone_end_x - zone_start_x) * (25 / 100)
      (pyInt (zone_start_x + zone_margin) + 2, (y : ℤ) - 10,
       pyInt (zone_end_x - zone_start_x - 2 * zone_margin) - 4, (h : ℤ) + 20))

/-! ## Density measurement (main.py lines 170-183) -/

/-- Density of one zone rectangle (main.py lines 172-180): the rectangle
is clamped (`max(0,·)` on the corner, `min` against the image extent
measured from the unclamped corner — the tuple assignment of line 173
reads the old `rx`/`ry` on the right-hand side), degenerate rectangles
yield density 0, and the final NumPy slice clamps once more. -/
def roiDensity (img : BinImg) (r : ℤ × ℤ × ℤ × ℤ) : ℚ :=
  let rx' := max 0 r.1
  let ry' := max 0 r.2.1
  let rw' := min r.2.2.1 ((img.w : ℤ) - r.1)
  let rh' := min r.2.2.2 ((img.h : ℤ) - r.2.1)
  if rw' ≤ 0 ∨ rh' ≤ 0 then 0
  else
    let cs := sliceCountSize img ry' (ry' + rh') rx' (rx' + rw')
    if cs.2 > 0 then (cs.1 : ℚ) / (cs.2 : ℚ) else 0

/-- The five (or, with exactly five qualifying lines, four) zone ink
densities of one scoring attempt (main.py lines 170-183). -/
def zoneDensities (img : BinImg) (anchor : ℕ × ℕ × ℕ × ℕ) (vlines : List ℕ) : List ℚ :=
  (zone_rois img.w anchor vlines).map (fun r => roiDensity img r)

/-! ## Acceptance decision (main.py lines 185-206) -/

/-- `np.max` over a possibly empty density list, with the source's
`if zone_densities else 0` guard (main.py line 186). -/
def npMaxQ (l : List ℚ) : ℚ :=
  match l with
  | [] => 0
  | x :: xs => xs.foldl max x

/-- `np.argmax`: index of the first occurrence of the maximum
(main.py line 187). -/
def npArgmax (l : List ℚ) : ℕ := l.indexOf (npMaxQ l)

/-- The score ordering by column, `scores = [0, 2, 3, 4, 5]`
(main.py line 131). -/
def scoresList : List ℕ := [0, 2, 3, 4, 5]

/-- The acceptance decision of one scoring attempt (main.py lines
185-206): the argmax zone wins iff its density beats
`max(2 * margin_baseline, 1.5 * avg_rest)`, beats the absolute floor
`0.015`, and is at least twice the average of the remaining zones
(or that average is zero); on acceptance the winner's entry of
`scores` is returned. -/
def scoreDecision (densities : List ℚ) (baseline : ℚ) : Option ℕ :=
  let max_val : ℚ := npMaxQ densities
  let winner_idx : ℕ := npArgmax densities
  let empty_zone_densities :=
    ((List.range densities.length).filter (fun i => i ≠ winner_idx)).map
      (fun i => densities.getD i 0)
  let avg_empty_density : ℚ :=
    if empty_zone_densities = [] then 0
    else empty_zone_densities.sum / (empty_zone_densities.length : ℚ)
  let noise_threshold := max (baseline * 2) (avg_empty_density * (3 / 2))
  if max_val > noise_threshold ∧ max_val > 3 / 200 ∧
      (avg_empty_density = 0 ∨ max_val > avg_empty_density * 2) then
    some (scoresList.getD winner_idx 0)
  else none

/-! ## The retrying scorer (main.py lines 127-213) -/

/-- The body of one attempt of `detect_score_with_grid` (main.py lines
131-206): margin baseline, zone construction, density measurement,
acceptance decision.  The threshold multiplier argument is recorded but
unused, exactly as in the source, whose lines 131-206 never read
`initial_threshold_multiplier` (its only use is the retry guard of
line 209). -/
def detectBody (img : BinImg) (anchor : ℕ × ℕ × ℕ × ℕ) (vlines : List ℕ)
    (_mult : ℚ) : Option ℕ :=
  scoreDecision (zoneDensities img anchor vlines)
    (calculate_margin_baseline_density img)

/-- The retry skeleton of `detect_score_with_grid` (main.py lines
203-213): run the attempt body at the current multiplier; return its
accepted score if any, otherwise retry with the multiplier halved while
it still exceeds `0.5`, else return `none`. -/
def detectLoop (f : ℚ → Option ℕ) (m : ℚ) : Option ℕ :=
  match f m with
  | some s => some s
  | none => if h : m > 1 / 2 then detectLoop f (m * (1 / 2)) else none
termination_by (Int.ceil (2 * m)).toNat
decreasing_by
  have h1 : (Int.ceil (2 * (m * (1 / 2))) : ℤ) = Int.ceil m := by
    congr 1
    ring
  rw [h1]
  have h2 : (Int.ceil m : ℤ) < Int.ceil (2 * m) := by
    rw [Int.lt_ceil]
    rcases le_or_lt 1 m with hm | hm
    · calc (Int.ceil m : ℚ) < m + 1 := Int.ceil_lt_add_one m
        _ ≤ 2 * m := by linarith
    · have hle1 : (Int.ceil m : ℤ) ≤ 1 := by
        rw [Int.ceil_le]
        push_cast
        linarith
      calc (Int.ceil m : ℚ) ≤ 1 := by exact_mod_cast hle1
        _ < 2 * m := by linarith
  have h3 : (0 : ℤ) < Int.ceil (2 * m) := by
    rw [Int.lt_ceil]
    push_cast
    linarith
  omega

/-- `detect_score_with_grid` (main.py lines 127-213): the retry skeleton
applied to the per-call attempt body. -/
def detect_score_with_grid (img : BinImg) (anchor : ℕ × ℕ × ℕ × ℕ)
    (vlines : List ℕ) (m : ℚ) : Option ℕ :=
  detectLoop (detectBody img anchor vlines) m

/-- Number of attempts (initial call plus retries) the recursion of
main.py lines 203-213 performs before returning. -/
def attemptsLoop (f : ℚ → Option ℕ) (m : ℚ) : ℕ :=
  match f m with
  | some _ => 1
  | none => if h : m > 1 / 2 then 1 + attemptsLoop f (m * (1 / 2)) else 1
termination_by (Int.ceil (2 * m)).toNat
decreasing_by
  have h1 : (Int.ceil (2 * (m * (1 / 2))) : ℤ) = Int.ceil m := by
    congr 1
    ring
  rw [h1]
  have h2 : (Int.ceil m : ℤ) < Int.ceil (2 * m) := by
    rw [Int.lt_ceil]
    rcases le_or_lt 1 m with hm | hm
    · calc (Int.ceil m : ℚ) < m + 1 := Int.ceil_lt_add_one m
        _ ≤ 2 * m := by linarith
    · have hle1 : (Int.ceil m : ℤ) ≤ 1 := by
        rw [Int.ceil_le]
        push_cast
        linarith
      calc (Int.ceil m : ℚ) ≤ 1 := by exact_mod_cast hle1
        _ < 2 * m := by linarith
  have h3 : (0 : ℤ) < Int.ceil (2 * m) := by
    rw [Int.lt_ceil]
    push_cast
    linarith
  omega

/-- Attempt count of `detect_score_with_grid` on its actual body. -/
def detect_attempts (img : BinImg) (anchor : ℕ × ℕ × ℕ × ℕ)
    (vlines : List ℕ) (m : ℚ) : ℕ :=
  attemptsLoop (detectBody img anchor vlines) m

/-! ## Spec-side companions for the scorer claims -/

/-- Average of a density list, `0` when empty (claim-side formulation of
the average of the remaining zones). -/
def avgQ (l : List ℚ) : ℚ := if l = [] then 0 else l.sum / (l.length : ℚ)

/-- Zones from consecutive qualifying-line pairs, phrased as the amended
claim words it: the first five consecutive pairs of the qualifying lines,
five pixels shaved off each side, vertical span from 10 px above the
anchor to 10 px below it. -/
def pairZones (y h : ℕ) (R : List ℕ) : List (ℤ × ℤ × ℤ × ℤ) :=
  ((R.zip R.tail).take 5).map (fun p =>
    ((p.1 : ℤ) + 5, (y : ℤ) - 10, (p.2 : ℤ) - (p.1 : ℤ) - 10, (h : ℤ) + 20))

/-- Fallback zones, phrased as the amended claim words it: five equal
columns of width `colw` spanning from the first qualifying line (absent
any, `int(0.45 * width)`) to `int(0.95 * width)`, each shrunk inward by a
quarter of its width plus two pixels on both sides, vertical span from
10 px above the anchor to 10 px below it. -/
def fallbackZones (imgW y h : ℕ) (R : List ℕ) : List (ℤ × ℤ × ℤ × ℤ) :=
  let left : ℚ :=
    match R with
    | [] => (pyInt ((imgW : ℚ) * (45 / 100)) : ℚ)
    | l :: _ => (l : ℚ)
  let right : ℚ := (pyInt ((imgW : ℚ) * (95 / 100)) : ℚ)
  let colw : ℚ := (right - left) / 5
  (List.range 5).map (fun i : ℕ =>
    (pyInt (left + (i : ℚ) * colw + colw / 4) + 2, (y : ℤ) - 10,
     pyInt (colw / 2) - 4, (h : ℤ) + 20))

/-! ## Grid line locator (main.py lines 83-123)

The morphological front end (adaptive threshold, vertical opening,
column sums) is numeric library code; the embedding starts from the 1-D
column-sum profile it produces, one rational per image column. -/

/-- `np.where(column_sums > threshold)[0]`: the column indices whose sum
exceeds the threshold, in ascending order (main.py lines 100-101). -/
def npWhereGt (sums : List ℚ) (t : ℚ) : List ℕ :=
  (List.range sums.length).filter (fun i => sums.getD i 0 > t)

/-- `int(np.mean(current_group))` for a group of column indices
(main.py lines 114 and 116): the mean of naturals, truncated. -/
def groupMean (g : List ℕ) : ℕ := g.sum / g.length

/-- The index-grouping loop of main.py lines 107-116: indices closer than
15 px to the previous one join the current group; a wider gap flushes the
group as one line at its truncated mean position. -/
def groupAux (group : List ℕ) (last : ℕ) : List ℕ → List ℕ
  | [] => [groupMean group]
  | x :: xs =>
    if x - last < 15 then groupAux (group ++ [x]) x xs
    else groupMean group :: groupAux [x] x xs

/-- `unique_lines` of main.py lines 106-116. -/
def uniqueLines (idxs : List ℕ) : List ℕ :=
  match idxs with
  | [] => []
  | x :: xs => groupAux [x] x xs

/-- `detect_vertical_grid_lines` (main.py lines 83-123) from the
column-sum profile: threshold at 30% of the profile maximum, group nearby
indices, keep lines right of `0.45 * width` and sort ascending.  The
image width is the profile length. -/
def detect_vertical_grid_lines (sums : List ℚ) : List ℕ :=
  let img_width := sums.length
  let threshold := npMaxQ sums * (3 / 10)
  let line_indices := npWhereGt sums threshold
  if line_indices.isEmpty then []
  else
    ((uniqueLines line_indices).filter
      (fun l : ℕ => (l : ℚ) > (img_width : ℚ) * (45 / 100))).insertionSort (· ≤ ·)

/-! ## Anchor locator (main.py lines 363-402)

The recognizer output is a list of tokens (text, confidence, box); the
embedding consumes it as input. -/

/-- One recognized token from `pytesseract.image_to_data`. -/
structure Token where
  text : String
  conf : ℤ
  x : ℕ
  y : ℕ
  w : ℕ
  h : ℕ
deriving DecidableEq

/-- The ASCII whitespace set of Python's `str.strip` and of the regex
class `\s`. -/
def pyIsSpace (c : Char) : Bool :=
  c = ' ' ∨ c = '\t' ∨ c = '\n' ∨ c = '\x0b' ∨ c = '\x0c' ∨ c = '\r'

/-- `str.strip()`: drop whitespace from both ends. -/
def pyStrip (s : String) : String :=
  ⟨(((s.data.dropWhile pyIsSpace).reverse).dropWhile pyIsSpace).reverse⟩

/-- The character class `[.\s]`. -/
def dotOrSpace (c : Char) : Bool := c = '.' ∨ pyIsSpace c

/-- `re.match(r"^\s*(\d{1,2})[.\s]", s)` (main.py line 379): skip leading
whitespace, then greedily one or two ASCII digits followed by a period or
a whitespace character; returns the captured digit string.  The greedy
two-digit try backtracks to one digit exactly as the regex engine does. -/
def matchAnchor (s : String) : Option String :=
  match s.data.dropWhile pyIsSpace with
  | c1 :: c2 :: c3 :: _ =>
    if c1.isDigit ∧ c2.isDigit ∧ dotOrSpace c3 then some ⟨[c1, c2]⟩
    else if c1.isDigit ∧ dotOrSpace c2 then some ⟨[c1]⟩
    else none
  | [c1, c2] => if c1.isDigit ∧ dotOrSpace c2 then some ⟨[c1]⟩ else none
  | _ => none

/-- Python dict assignment `d[k] = v` on an association list: replaces
the value of the entry holding the key (a dict holds each key once), in
place, else appends a new entry. -/
def dictInsert {β : Type} : List (String × β) → String → β → List (String × β)
  | [], k, v => [(k, v)]
  | p :: ps, k, v => if p.1 = k then (k, v) :: ps else p :: dictInsert ps k v

/-- One iteration of the token loop of `find_text_anchors`
(main.py lines 375-400): regex match, rubric-id membership, confidence
above 60, far-left margin check, then the dict assignment of line 396. -/
def anchorStep (imgW : ℕ) (acc : List (String × (ℕ × ℕ × ℕ × ℕ))) (t : Token) :
    List (String × (ℕ × ℕ × ℕ × ℕ)) :=
  match matchAnchor (pyStrip t.text) with
  | none => acc
  | some q =>
    if q ∈ rubricKeys then
      if t.conf > 60 then
        if (t.x : ℚ) < (imgW : ℚ) * (15 / 100) then
          dictInsert acc q (t.x, t.y, t.w, t.h)
        else acc
      else acc
    else acc

/-- `find_text_anchors` (main.py lines 363-402) over the recognizer's
token list. -/
def find_text_anchors (imgW : ℕ) (toks : List Token) :
    List (String × (ℕ × ℕ × ℕ × ℕ)) :=
  toks.foldl (anchorStep imgW) []

/-- Claim-side acceptance test for a single token: the captured digits are
a known rubric id, confidence exceeds 60, and the x position is inside the
far-left margin. -/
def acceptedAnchor (imgW : ℕ) (t : Token) : Option (String × (ℕ × ℕ × ℕ × ℕ)) :=
  match matchAnchor (pyStrip t.text) with
  | none => none
  | some q =>
    if q ∈ rubricKeys ∧ t.conf > 60 ∧ (t.x : ℚ) < (imgW : ℚ) * (15 / 100) then
      some (q, (t.x, t.y, t.w, t.h))
    else none

/-! ## Geometric normalizer (main.py lines 52-61)

The rotation kernel is scipy library code; the embedding records the call
symbolically with its parameters. -/

/-- A page image for the Geometric Normalizer, tracked symbolically:
either a source raster, or the result of one call to
`scipy.ndimage.interpolation.rotate` with the recorded angle, reshape
flag and fill value.  The documented scipy semantics: with
`reshape=False` the output keeps the input shape; with `reshape=True`
the canvas is grown to contain the whole rotated image. -/
inductive ImgExpr where
  | src (h w : ℕ)
  | rot (base : ImgExpr) (angleDeg : ℤ) (reshape : Bool) (cval : ℕ)
deriving DecidableEq

/-- `deskew` (main.py lines 52-61).  The orientation report is `none`
when the recognizer call raised (the except path of lines 59-60), else
`some angle` from `osd["rotate"]`.  A nonzero angle of magnitude below 15
degrees rotates by the negated angle with `reshape=False` and `cval=255`;
every other case returns the image unchanged. -/
def deskew (image : ImgExpr) (osd : Option ℤ) : ImgExpr :=
  match osd with
  | none => image
  | some angle =>
    if angle ≠ 0 ∧ angle.natAbs < 15 then ImgExpr.rot image (-angle) false 255
    else image

/-- The normalizer contract as the claim words it, differing from the
source only in that the rotation expands the canvas as needed
(`reshape=True`). -/
def deskewClaimed (image : ImgExpr) (osd : Option ℤ) : ImgExpr :=
  match osd with
  | none => image
  | some angle =>
    if angle ≠ 0 ∧ angle.natAbs < 15 then ImgExpr.rot image (-angle) true 255
    else image

/-! ## Page orchestrator (main.py lines 253-316)

The orchestrator is embedded over the outcomes of its collaborator calls:
the validation verdict of `has_critical_anchor`, the two handwritten-field
extraction results, the anchor map and the grid lines.  The result record
is the Python dict as an ordered association list. -/

/-- A value of the per-page result record. -/
inductive CellVal where
  | s (v : String)
  | n (v : ℕ)
  | sc (v : Option ℕ)
deriving DecidableEq

/-- The inputs of one `process_rubric_page` run, with every collaborator
outcome made explicit. -/
structure PageInputs where
  valid : Bool
  advisorText : String
  advisorImgPath : String
  groupText : String
  groupImgPath : String
  commentsPath : String
  anchors : List (String × (ℕ × ℕ × ℕ × ℕ))
  img : BinImg
  vlines : List ℕ

/-- `process_rubric_page` (main.py lines 253-316).  A failed validation
returns the single comments record (lines 270-274).  Otherwise the field
results are recorded (lines 291-296), each anchored question gets a
`Q<id>_Score` and a `Q<id>_Text` entry with the scorer's verdict (an
unresolved question is recorded as score `none`), non-none scores
accumulate into `Total_Score` (lines 298-309).  The anchors come from
`find_text_anchors`, a dict, so their ids are distinct and the dict
assignments of lines 304-305 create fresh keys, modelled by appending. -/
def process_rubric_page (p : PageInputs) : List (String × CellVal) :=
  if p.valid = false then
    [("Comments_Image_Path", CellVal.s p.commentsPath)]
  else
    let base := [("Advisor", CellVal.s p.advisorText),
                 ("Advisor_Image_Path", CellVal.s p.advisorImgPath),
                 ("Group_Name", CellVal.s p.groupText),
                 ("Group_Name_Image_Path", CellVal.s p.groupImgPath)]
    let step := fun (acc : List (String × CellVal) × ℕ)
        (qb : String × (ℕ × ℕ × ℕ × ℕ)) =>
      let score := detect_score_with_grid p.img qb.2 p.vlines 1
      (acc.1 ++ [("Q" ++ qb.1 ++ "_Score", CellVal.sc score),
                 ("Q" ++ qb.1 ++ "_Text", CellVal.s (rubricText qb.1 score))],
       acc.2 + score.getD 0)
    let scored := p.anchors.foldl step (base, 0)
    scored.1 ++ [("Total_Score", CellVal.n scored.2)]

/-- Claim-side total: the sum of the non-none question scores. -/
def nonNoneSum (l : List (Option ℕ)) : ℕ := (l.filterMap id).sum

/-! ## Basic facts about the embedded scorer -/

theorem foldl_max_mem (x : ℚ) (xs : List ℚ) : xs.foldl max x ∈ x :: xs := by
  induction xs generalizing x with
  | nil => simp
  | cons y ys ih =>
    show List.foldl max (max x y) ys ∈ x :: y :: ys
    have h := ih (max x y)
    rcases List.mem_cons.mp h with h1 | h1
    · rcases max_choice x y with hm | hm
      · rw [h1, hm]
        exact List.mem_cons_self _ _
      · rw [h1, hm]
        exact List.mem_cons_of_mem _ (List.mem_cons_self _ _)
    · exact List.mem_cons_of_mem _ (List.mem_cons_of_mem _ h1)

theorem le_foldl_max (x : ℚ) (xs : List ℚ) : ∀ y ∈ x :: xs, y ≤ xs.foldl max x := by
  induction xs generalizing x with
  | nil => simp
  | cons z zs ih =>
    intro y hy
    simp only [List.mem_cons] at hy
    show y ≤ List.foldl max (max x z) zs
    rcases hy with rfl | rfl | hy
    · exact le_trans (le_max_left y z) (ih _ _ (List.mem_cons_self _ _))
    · exact le_trans (le_max_right x y) (ih _ _ (List.mem_cons_self _ _))
    · exact ih _ _ (List.mem_cons_of_mem _ hy)

theorem npMaxQ_mem {l : List ℚ} (h : l ≠ []) : npMaxQ l ∈ l := by
  match l with
  | [] => exact absurd rfl h
  | x :: xs => exact foldl_max_mem x xs

theorem le_npMaxQ {l : List ℚ} {y : ℚ} (h : y ∈ l) : y ≤ npMaxQ l := by
  match l with
  | x :: xs => exact le_foldl_max x xs y h

theorem roiDensity_nonneg (img : BinImg) (r : ℤ × ℤ × ℤ × ℤ) : 0 ≤ roiDensity img r := by
  unfold roiDensity
  dsimp only
  split
  · exact le_refl 0
  · split
    · positivity
    · exact le_refl 0

theorem zoneDensities_nonneg (img : BinImg) (anchor : ℕ × ℕ × ℕ × ℕ) (vlines : List ℕ) :
    ∀ d ∈ zoneDensities img anchor vlines, 0 ≤ d := by
  intro d hd
  rcases List.mem_map.mp hd with ⟨r, _, rfl⟩
  exact roiDensity_nonneg img r

theorem baseline_nonneg (img : BinImg) : 0 ≤ calculate_margin_baseline_density img := by
  unfold calculate_margin_baseline_density
  dsimp only
  split
  · positivity
  · exact le_refl 0

/-- If every density is between `0` and the baseline, no zone is accepted:
either the baseline is positive, and the maximum cannot beat
`2 * baseline`, or the baseline is zero, and the maximum cannot beat the
absolute floor `0.015`. -/
theorem scoreDecision_none_of_le {d : List ℚ} {bl : ℚ}
    (hnn : ∀ x ∈ d, 0 ≤ x) (hbl : 0 ≤ bl) (hle : ∀ x ∈ d, x ≤ bl) :
    scoreDecision d bl = none := by
  unfold scoreDecision
  dsimp only
  rw [if_neg]
  intro hc
  obtain ⟨h1, h2, _⟩ := hc
  have hmax : npMaxQ d ≤ bl := by
    match d with
    | [] =>
      have hz : npMaxQ ([] : List ℚ) = 0 := rfl
      rw [hz]
      exact hbl
    | x :: xs =>
      exact hle _ (npMaxQ_mem (by simp))
  by_cases hbl0 : bl = 0
  · subst hbl0
    have hm0 : npMaxQ d ≤ 0 := hmax
    linarith
  · have hblpos : 0 < bl := lt_of_le_of_ne hbl (Ne.symm hbl0)
    have hgt2 : npMaxQ d > bl * 2 := lt_of_le_of_lt (le_max_left _ _) h1
    linarith

/-- The retry loop on a multiplier-independent body collapses to the
body's value, whatever the starting multiplier. -/
theorem detectLoop_const (f : ℚ → Option ℕ) (c : Option ℕ) (hf : ∀ x : ℚ, f x = c) :
    ∀ (n : ℕ) (m : ℚ), (Int.ceil (2 * m)).toNat ≤ n → detectLoop f m = c := by
  intro n
  induction n with
  | zero =>
    intro m hm
    have hmle : ¬ m > 1 / 2 := by
      intro hgt
      have hpos : (0 : ℤ) < Int.ceil (2 * m) := by
        rw [Int.lt_ceil]
        push_cast
        linarith
      omega
    cases hc : c with
    | some s => rw [detectLoop, hf, hc]
    | none =>
      rw [detectLoop, hf, hc]
      show (if h : m > 1 / 2 then detectLoop f (m * (1 / 2)) else none) = none
      exact dif_neg hmle
  | succ k ih =>
    intro m hm
    cases hc : c with
    | some s => rw [detectLoop, hf, hc]
    | none =>
      rw [detectLoop, hf, hc]
      show (if h : m > 1 / 2 then detectLoop f (m * (1 / 2)) else none) = none
      by_cases hgt : m > 1 / 2
      · rw [dif_pos hgt]
        rw [← hc]
        refine ih (m * (1 / 2)) ?_
        have h1 : (Int.ceil (2 * (m * (1 / 2))) : ℤ) = Int.ceil m := by
          congr 1
          ring
        have h2 : (Int.ceil m : ℤ) < Int.ceil (2 * m) := by
          rw [Int.lt_ceil]
          rcases le_or_lt 1 m with hm1 | hm1
          · calc (Int.ceil m : ℚ) < m + 1 := Int.ceil_lt_add_one m
              _ ≤ 2 * m := by linarith
          · have hle1 : (Int.ceil m : ℤ) ≤ 1 := by
              rw [Int.ceil_le]
              push_cast
              linarith
            calc (Int.ceil m : ℚ) ≤ 1 := by exact_mod_cast hle1
              _ < 2 * m := by linarith
        rw [h1]
        omega
      · exact dif_neg hgt

/-- `detect_score_with_grid` equals the single acceptance evaluation:
the retry never changes the decision. -/
theorem detect_eq_single (img : BinImg) (anchor : ℕ × ℕ × ℕ × ℕ) (vlines : List ℕ) (m : ℚ) :
    detect_score_with_grid img anchor vlines m =
      scoreDecision (zoneDensities img anchor vlines)
        (calculate_margin_baseline_density img) :=
  detectLoop_const (detectBody img anchor vlines) _ (fun _ => rfl) _ m le_rfl

theorem attemptsLoop_of_floor (f : ℚ → Option ℕ) (m : ℚ) (h : ¬ m > 1 / 2) :
    attemptsLoop f m = 1 := by
  rw [attemptsLoop]
  cases hd : f m with
  | some s => rfl
  | none =>
    show (if h : m > 1 / 2 then 1 + attemptsLoop f (m * (1 / 2)) else 1) = 1
    exact dif_neg h

theorem attempts_at_one_le_two (img : BinImg) (anchor : ℕ × ℕ × ℕ × ℕ) (vlines : List ℕ) :
    detect_attempts img anchor vlines 1 ≤ 2 := by
  unfold detect_attempts
  rw [attemptsLoop]
  cases hd : detectBody img anchor vlines 1 with
  | some s => exact one_le_two
  | none =>
    show (if h : (1 : ℚ) > 1 / 2 then
        1 + attemptsLoop (detectBody img anchor vlines) ((1 : ℚ) * (1 / 2)) else 1) ≤ 2
    rw [dif_pos (by norm_num : (1 : ℚ) > 1 / 2)]
    rw [attemptsLoop_of_floor _ _ (by norm_num : ¬ ((1 : ℚ) * (1 / 2)) > 1 / 2)]

/-! ## Claims C5, C7, C10 -/

/-- C5: for every binarized image, anchor box and grid-line list, the score
returned by the Zone Density Scorer is independent of the initial threshold
multiplier, and the retrying scorer is extensionally equal to the single
acceptance evaluation, which returns the winning score when confident and
`none` otherwise. -/
theorem C5_multiplier_independence (img : BinImg) (anchor : ℕ × ℕ × ℕ × ℕ)
    (vlines : List ℕ) (m m' : ℚ) :
    detect_score_with_grid img anchor vlines m =
      detect_score_with_grid img anchor vlines m' ∧
    detect_score_with_grid img anchor vlines m =
      scoreDecision (zoneDensities img anchor vlines)
        (calculate_margin_baseline_density img) := by
  refine ⟨?_, detect_eq_single img anchor vlines m⟩
  rw [detect_eq_single, detect_eq_single]

/-- C7: a row whose zone densities all lie at or below the page's
margin-baseline density scores `none`, whatever the threshold multiplier,
retries included. -/
theorem C7_no_mark_scores_none (img : BinImg) (anchor : ℕ × ℕ × ℕ × ℕ)
    (vlines : List ℕ) (m : ℚ)
    (hle : ∀ d ∈ zoneDensities img anchor vlines,
      d ≤ calculate_margin_baseline_density img) :
    detect_score_with_grid img anchor vlines m = none := by
  rw [detect_eq_single]
  exact scoreDecision_none_of_le (zoneDensities_nonneg img anchor vlines)
    (baseline_nonneg img) hle

/-- Witness for C7 at a concrete blank page: every zone density is `0`,
the baseline is `0`, and the scorer returns `none`. -/
theorem C7_no_mark_scores_none_witness :
    (∀ d ∈ zoneDensities ⟨10, 10, fun _ _ => false⟩ (0, 2, 3, 2) [],
      d ≤ calculate_margin_baseline_density ⟨10, 10, fun _ _ => false⟩) ∧
    detect_score_with_grid ⟨10, 10, fun _ _ => false⟩ (0, 2, 3, 2) [] 1 = none :=
  ⟨by with_unfolding_all decide,
   C7_no_mark_scores_none ⟨10, 10, fun _ _ => false⟩ (0, 2, 3, 2) [] 1
     (by with_unfolding_all decide)⟩

/-- C10: the adaptive retry terminates; a retry happens only while the
multiplier exceeds `0.5` (at the floor the attempt count is `1`), the
number of retries from the starting multiplier `1.0` is at most `2`, and
an unaccepted decision at the floor yields the terminal result `none`. -/
theorem C10_retry_bounded (img : BinImg) (anchor : ℕ × ℕ × ℕ × ℕ) (vlines : List ℕ) :
    (∀ m : ℚ, ¬ m > 1 / 2 → detect_attempts img anchor vlines m = 1) ∧
    detect_attempts img anchor vlines 1 - 1 ≤ 2 ∧
    (scoreDecision (zoneDensities img anchor vlines)
        (calculate_margin_baseline_density img) = none →
      detect_score_with_grid img anchor vlines 1 = none) := by
  refine ⟨fun m hm => attemptsLoop_of_floor _ m hm, ?_, fun hd => ?_⟩
  · have h2 := attempts_at_one_le_two img anchor vlines
    omega
  · rw [detect_eq_single, hd]

/-- Witness for C10 at a concrete blank page: no retry below the floor
multiplier, and the unaccepted decision ends in `none`. -/
theorem C10_retry_bounded_witness :
    detect_attempts ⟨10, 10, fun _ _ => false⟩ (0, 2, 3, 2) [] (1 / 4) = 1 ∧
    detect_score_with_grid ⟨10, 10, fun _ _ => false⟩ (0, 2, 3, 2) [] 1 = none :=
  ⟨(C10_retry_bounded ⟨10, 10, fun _ _ => false⟩ (0, 2, 3, 2) []).1 (1 / 4)
     (by norm_num),
   (C10_retry_bounded ⟨10, 10, fun _ _ => false⟩ (0, 2, 3, 2) []).2.2
     (by with_unfolding_all decide)⟩

/-! ## List lemmas for the acceptance decision -/

theorem le_foldr_max_of_mem {l : List ℚ} {a y : ℚ} (h : y ∈ l) : y ≤ l.foldr max a := by
  induction l with
  | nil => exact absurd h (List.not_mem_nil y)
  | cons x xs ih =>
    rcases List.mem_cons.mp h with rfl | hmem
    · exact le_max_left _ _
    · exact le_trans (ih hmem) (le_max_right _ _)

theorem foldr_max_le {l : List ℚ} {a b : ℚ} (ha : a ≤ b) (h : ∀ y ∈ l, y ≤ b) :
    l.foldr max a ≤ b := by
  induction l with
  | nil => exact ha
  | cons x xs ih =>
    exact max_le (h x (List.mem_cons_self _ _))
      (ih (fun y hy => h y (List.mem_cons_of_mem _ hy)))

/-- On a list of nonnegative entries, NumPy's max (a left fold from the
head) agrees with the right fold from `0`. -/
theorem npMaxQ_eq_foldr {l : List ℚ} (h : ∀ x ∈ l, 0 ≤ x) :
    npMaxQ l = l.foldr max 0 := by
  cases hl : l with
  | nil => rfl
  | cons x xs =>
    subst hl
    apply le_antisymm
    · exact le_foldr_max_of_mem (npMaxQ_mem (by simp))
    · refine foldr_max_le ?_ (fun y hy => le_npMaxQ hy)
      exact le_trans (h x (List.mem_cons_self _ _)) (le_npMaxQ (List.mem_cons_self _ _))

theorem range_map_getD (l : List ℚ) :
    (List.range l.length).map (fun i => l.getD i 0) = l := by
  induction l with
  | nil => rfl
  | cons x xs ih =>
    rw [List.length_cons, List.range_succ_eq_map, List.map_cons, List.map_map]
    simp only [Function.comp_def, List.getD_cons_succ, List.getD_cons_zero]
    rw [ih]

/-- Keeping every index other than `W` and reading the entries off is the
same as erasing the entry at `W`. -/
theorem filter_ne_range_map_getD (l : List ℚ) (W : ℕ) :
    ((List.range l.length).filter (fun i => i ≠ W)).map (fun i => l.getD i 0) =
      l.eraseIdx W := by
  induction l generalizing W with
  | nil => rfl
  | cons x xs ih =>
    rw [List.length_cons, List.range_succ_eq_map]
    cases W with
    | zero =>
      rw [List.eraseIdx_cons_zero, List.filter_cons, if_neg (by simp), List.filter_map]
      have hall : List.filter ((fun i => decide (i ≠ 0)) ∘ Nat.succ) (List.range xs.length) =
          List.range xs.length :=
        List.filter_eq_self.mpr (fun a _ => by simp)
      rw [hall, List.map_map]
      have hfun : (fun i => (x :: xs).getD i 0) ∘ Nat.succ = fun i => xs.getD i 0 := by
        funext i
        simp [List.getD_cons_succ]
      rw [hfun]
      exact range_map_getD xs
    | succ W =>
      rw [List.eraseIdx_cons_succ, List.filter_cons, if_pos (by simp), List.filter_map,
        List.map_cons]
      have hcong : List.filter ((fun i => decide (i ≠ W + 1)) ∘ Nat.succ)
          (List.range xs.length) =
          List.filter (fun i => decide (i ≠ W)) (List.range xs.length) :=
        List.filter_congr (fun a _ => by simp)
      rw [hcong, List.map_map]
      have hfun : (fun i => (x :: xs).getD i 0) ∘ Nat.succ = fun i => xs.getD i 0 := by
        funext i
        simp [List.getD_cons_succ]
      rw [hfun, ih W]
      rfl

/-! ## Claim C3 -/

/-- C3: in every scoring attempt (any multiplier), with `M` the maximum
zone density, `W` its argmax index, `A` the average density of the
remaining zones and `noise_threshold = max(2 * margin_baseline, 1.5 * A)`,
the attempt accepts zone `W` if and only if `M > noise_threshold`,
`M > 0.015` and (`A = 0` or `M > 2 * A`); on acceptance it returns entry
`W` of the score ordering `[0, 2, 3, 4, 5]`. -/
theorem C3_acceptance_rule (img : BinImg) (anchor : ℕ × ℕ × ℕ × ℕ)
    (vlines : List ℕ) (mult : ℚ) :
    detectBody img anchor vlines mult =
      (let d := zoneDensities img anchor vlines
       let b := calculate_margin_baseline_density img
       let M := d.foldr max 0
       let W := d.indexOf M
       let A := avgQ (d.eraseIdx W)
       if M > max (2 * b) ((3 / 2) * A) ∧ M > 3 / 200 ∧ (A = 0 ∨ M > 2 * A)
       then some (scoresList.getD W 0) else none) := by
  unfold detectBody scoreDecision npArgmax avgQ
  dsimp only
  rw [filter_ne_range_map_getD]
  rw [npMaxQ_eq_foldr (zoneDensities_nonneg img anchor vlines)]
  rw [mul_comm (calculate_margin_baseline_density img) 2]
  rw [mul_comm _ (3 / 2 : ℚ), mul_comm _ (2 : ℚ)]

/-! ## Claim C1 -/

theorem zone_rois_pair (imgW : ℕ) (anchor : ℕ × ℕ × ℕ × ℕ) (vlines : List ℕ)
    (hlen : 5 ≤ (relevant_lines imgW vlines).length) :
    zone_rois imgW anchor vlines =
      pairZones anchor.2.1 anchor.2.2.2 (relevant_lines imgW vlines) := by
  unfold zone_rois pairZones
  dsimp only
  rw [if_pos hlen]
  set R := relevant_lines imgW vlines with hR
  apply List.ext_getElem
  · simp only [List.length_map, List.length_range, List.length_take, List.length_zip,
      List.length_tail]
    omega
  · intro i h1 h2
    simp only [List.getElem_map, List.getElem_range, List.getElem_take, List.getElem_zip]
    have hi5 : i < min 5 (R.length - 1) := by
      simpa using h1
    have hiR : i < R.length := by omega
    have hiR1 : i + 1 < R.length := by omega
    have htail : i < R.tail.length := by
      simp only [List.length_tail]
      omega
    rw [List.getD_eq_getElem _ _ hiR, List.getD_eq_getElem _ _ hiR1]
    congr 2
    · rw [List.getElem_tail]

theorem zone_rois_fallback (imgW : ℕ) (anchor : ℕ × ℕ × ℕ × ℕ) (vlines : List ℕ)
    (hlen : (relevant_lines imgW vlines).length < 5) :
    zone_rois imgW anchor vlines =
      fallbackZones imgW anchor.2.1 anchor.2.2.2 (relevant_lines imgW vlines) := by
  unfold zone_rois fallbackZones
  dsimp only
  rw [if_neg (by omega)]
  apply List.map_congr_left
  intro i _
  have e1 : ∀ left colw : ℚ,
      left + (i : ℚ) * colw + (left + ((i : ℚ) + 1) * colw - (left + (i : ℚ) * colw)) * (25 / 100)
        = left + (i : ℚ) * colw + colw / 4 := by
    intro left colw
    ring
  have e2 : ∀ left colw : ℚ,
      left + ((i : ℚ) + 1) * colw - (left + (i : ℚ) * colw)
          - 2 * ((left + ((i : ℚ) + 1) * colw - (left + (i : ℚ) * colw)) * (25 / 100))
        = colw / 2 := by
    intro left colw
    ring
  rw [e1, e2]

theorem zone_rois_length_of_ge (imgW : ℕ) (anchor : ℕ × ℕ × ℕ × ℕ) (vlines : List ℕ)
    (hlen : 5 ≤ (relevant_lines imgW vlines).length) :
    (zone_rois imgW anchor vlines).length =
      min 5 ((relevant_lines imgW vlines).length - 1) := by
  unfold zone_rois
  dsimp only
  rw [if_pos hlen]
  rw [List.length_map]
  rw [List.length_range]

theorem zone_rois_length_of_lt (imgW : ℕ) (anchor : ℕ × ℕ × ℕ × ℕ) (vlines : List ℕ)
    (hlen : (relevant_lines imgW vlines).length < 5) :
    (zone_rois imgW anchor vlines).length = 5 := by
  unfold zone_rois
  dsimp only
  rw [if_neg (by omega)]
  rw [List.length_map]
  rw [List.length_range]

/-- C1 (amended): with at least six qualifying lines the scorer builds
five zones from consecutive line pairs, each shaved by 5 px per side, the
vertical span running 10 px above and 10 px below the anchor; with
exactly five qualifying lines only four such zones exist; with fewer than
five the span from the first qualifying line (absent any,
`int(0.45 * width)`) to `int(0.95 * width)` is divided into five equal
columns, each shrunk inward by 25% of its width plus two pixels on both
sides, same vertical span. -/
theorem C1_zone_construction (imgW : ℕ) (anchor : ℕ × ℕ × ℕ × ℕ) (vlines : List ℕ) :
    (6 ≤ (relevant_lines imgW vlines).length →
      zone_rois imgW anchor vlines =
        pairZones anchor.2.1 anchor.2.2.2 (relevant_lines imgW vlines) ∧
      (zone_rois imgW anchor vlines).length = 5) ∧
    ((relevant_lines imgW vlines).length = 5 →
      zone_rois imgW anchor vlines =
        pairZones anchor.2.1 anchor.2.2.2 (relevant_lines imgW vlines) ∧
      (zone_rois imgW anchor vlines).length = 4) ∧
    ((relevant_lines imgW vlines).length < 5 →
      zone_rois imgW anchor vlines =
        fallbackZones imgW anchor.2.1 anchor.2.2.2 (relevant_lines imgW vlines) ∧
      (zone_rois imgW anchor vlines).length = 5) := by
  refine ⟨fun h6 => ⟨zone_rois_pair imgW anchor vlines (by omega), ?_⟩,
    fun h5 => ⟨zone_rois_pair imgW anchor vlines (by omega), ?_⟩,
    fun hlt => ⟨zone_rois_fallback imgW anchor vlines hlt,
      zone_rois_length_of_lt imgW anchor vlines hlt⟩⟩
  · rw [zone_rois_length_of_ge imgW anchor vlines (by omega)]
    omega
  · rw [zone_rois_length_of_ge imgW anchor vlines (by omega)]
    omega

/-- Witness for C1 at concrete inputs: five qualifying lines yield four
zones, and with no lines the fallback construction is used. -/
theorem C1_zone_construction_witness :
    (zone_rois 1000 (10, 100, 40, 30) [500, 550, 600, 650, 700]).length = 4 ∧
    zone_rois 1000 (10, 100, 40, 30) [] =
      fallbackZones 1000 100 30 (relevant_lines 1000 []) :=
  ⟨((C1_zone_construction 1000 (10, 100, 40, 30) [500, 550, 600, 650, 700]).2.1
      (by with_unfolding_all decide)).2,
   ((C1_zone_construction 1000 (10, 100, 40, 30) []).2.2
      (by with_unfolding_all decide)).1⟩

/-- C1 counterexample, on a 1000 px wide page with anchor
`(x, y, w, h) = (10, 100, 40, 30)`: with exactly five qualifying lines
`[500, 550, 600, 650, 700]` the scorer builds four zones, not five; the
first zone is `(505, 90, 40, 50)`, whose vertical span `[90, 140)` extends
10 px below the anchor bottom `130`, not 20 px; and with no lines the first
fallback zone is `(477, 90, 46, 50)` although a pure 25% inward shrink of
the first fifth of the span `[450, 950]` would give left edge `475` and
width `50`. -/
theorem C1_counterexample :
    (zone_rois 1000 (10, 100, 40, 30) [500, 550, 600, 650, 700]).length = 4 ∧
    ¬ (zone_rois 1000 (10, 100, 40, 30) [500, 550, 600, 650, 700]).length = 5 ∧
    (zone_rois 1000 (10, 100, 40, 30) [500, 550, 600, 650, 700]).getD 0 (0, 0, 0, 0) =
      (505, 90, 40, 50) ∧
    (zone_rois 1000 (10, 100, 40, 30) []).getD 0 (0, 0, 0, 0) = (477, 90, 46, 50) := by
  with_unfolding_all decide

/-! ## Anchor locator lemmas -/

theorem mem_keys_dictInsert {β : Type} {l : List (String × β)} {k x : String} {v : β}
    (h : x ∈ (dictInsert l k v).map Prod.fst) : x ∈ l.map Prod.fst ∨ x = k := by
  induction l with
  | nil =>
    simp [dictInsert] at h
    exact Or.inr h
  | cons p ps ih =>
    rw [dictInsert] at h
    by_cases hp : p.1 = k
    · rw [if_pos hp, List.map_cons, List.mem_cons] at h
      rcases h with rfl | h2
      · exact Or.inr rfl
      · rw [List.map_cons]
        exact Or.inl (List.mem_cons_of_mem _ h2)
    · rw [if_neg hp, List.map_cons, List.mem_cons] at h
      rcases h with rfl | h2
      · rw [List.map_cons]
        exact Or.inl (List.mem_cons_self _ _)
      · rcases ih h2 with hl | hk
        · rw [List.map_cons]
          exact Or.inl (List.mem_cons_of_mem _ hl)
        · exact Or.inr hk

theorem nodup_keys_dictInsert {β : Type} {l : List (String × β)} {k : String} {v : β}
    (h : (l.map Prod.fst).Nodup) : ((dictInsert l k v).map Prod.fst).Nodup := by
  induction l with
  | nil => simp [dictInsert]
  | cons p ps ih =>
    rw [dictInsert]
    rw [List.map_cons, List.nodup_cons] at h
    by_cases hp : p.1 = k
    · rw [if_pos hp, List.map_cons, List.nodup_cons]
      exact ⟨by rw [← hp]; exact h.1, h.2⟩
    · rw [if_neg hp, List.map_cons, List.nodup_cons]
      refine ⟨?_, ih h.2⟩
      intro hmem
      rcases mem_keys_dictInsert hmem with hl | hk
      · exact h.1 hl
      · exact hp hk

theorem mem_dictInsert {β : Type} {l : List (String × β)} {k q : String} {v b : β}
    (h : (q, b) ∈ dictInsert l k v) : (q, b) ∈ l ∨ (q = k ∧ b = v) := by
  induction l with
  | nil =>
    simp [dictInsert] at h
    exact Or.inr h
  | cons p ps ih =>
    rw [dictInsert] at h
    by_cases hp : p.1 = k
    · rw [if_pos hp] at h
      rcases List.mem_cons.mp h with heq | hmem
      · rcases Prod.mk.injEq .. ▸ heq with ⟨rfl, rfl⟩
        exact Or.inr ⟨rfl, rfl⟩
      · exact Or.inl (List.mem_cons_of_mem _ hmem)
    · rw [if_neg hp] at h
      rcases List.mem_cons.mp h with heq | hmem
      · exact Or.inl (List.mem_cons.mpr (Or.inl heq))
      · rcases ih hmem with hl | hr
        · exact Or.inl (List.mem_cons_of_mem _ hl)
        · exact Or.inr hr

theorem pyDictGet_dictInsert {β : Type} (l : List (String × β)) (k : String) (v : β)
    (q : String) :
    pyDictGet (dictInsert l k v) q = if q = k then some v else pyDictGet l q := by
  induction l with
  | nil =>
    rw [dictInsert]
    unfold pyDictGet
    rw [List.find?]
    by_cases hq : q = k
    · simp [hq]
    · have : ¬ ((k, v).1 = q) := fun hc => hq (hc.symm)
      simp [this, hq]
  | cons p ps ih =>
    rw [dictInsert]
    by_cases hp : p.1 = k
    · rw [if_pos hp]
      unfold pyDictGet
      rw [List.find?, List.find?]
      by_cases hq : q = k
      · simp [hq]
      · have h1 : ¬ ((k, v).1 = q) := fun hc => hq hc.symm
        have h2 : ¬ (p.1 = q) := by rw [hp]; exact fun hc => hq hc.symm
        simp [h1, h2, hq]
    · rw [if_neg hp]
      unfold pyDictGet
      rw [List.find?]
      by_cases hpq : p.1 = q
      · have hq : ¬ (q = k) := by rw [← hpq]; exact fun hc => hp hc
        simp only [hpq, decide_True]
        unfold pyDictGet at ih
        simp [hq, List.find?, hpq]
      · simp only [hpq, decide_False]
        unfold pyDictGet at ih
        rw [ih]
        by_cases hq : q = k
        · simp [hq]
        · simp [hq, List.find?, hpq]

theorem anchorStep_eq (imgW : ℕ) (acc : List (String × (ℕ × ℕ × ℕ × ℕ))) (t : Token) :
    anchorStep imgW acc t =
      match acceptedAnchor imgW t with
      | none => acc
      | some qb => dictInsert acc qb.1 qb.2 := by
  unfold anchorStep acceptedAnchor
  cases matchAnchor (pyStrip t.text) with
  | none => rfl
  | some q =>
    by_cases h1 : q ∈ rubricKeys
    · by_cases h2 : t.conf > 60
      · by_cases h3 : (t.x : ℚ) < (imgW : ℚ) * (15 / 100)
        · simp [h1, h2, h3]
        · simp [h1, h2, h3]
      · simp [h1, h2]
    · simp [h1]

theorem acceptedAnchor_some {imgW : ℕ} {t : Token} {q : String} {b : ℕ × ℕ × ℕ × ℕ}
    (h : acceptedAnchor imgW t = some (q, b)) :
    matchAnchor (pyStrip t.text) = some q ∧ q ∈ rubricKeys ∧ t.conf > 60 ∧
      (t.x : ℚ) < (imgW : ℚ) * (15 / 100) ∧ b = (t.x, t.y, t.w, t.h) := by
  unfold acceptedAnchor at h
  cases hm : matchAnchor (pyStrip t.text) with
  | none =>
    rw [hm] at h
    exact absurd h (by simp)
  | some q2 =>
    rw [hm] at h
    dsimp only at h
    by_cases hc : q2 ∈ rubricKeys ∧ t.conf > 60 ∧ (t.x : ℚ) < (imgW : ℚ) * (15 / 100)
    · rw [if_pos hc] at h
      have h2 := Option.some.inj h
      have hq : q2 = q := congrArg Prod.fst h2
      have hb : (t.x, t.y, t.w, t.h) = b := congrArg Prod.snd h2
      subst hq
      subst hb
      exact ⟨rfl, hc.1, hc.2.1, hc.2.2, rfl⟩
    · rw [if_neg hc] at h
      exact absurd h (by simp)

theorem foldl_anchorStep_mem (imgW : ℕ) (toks : List Token) :
    ∀ (acc : List (String × (ℕ × ℕ × ℕ × ℕ))) (q : String) (b : ℕ × ℕ × ℕ × ℕ),
      (q, b) ∈ toks.foldl (anchorStep imgW) acc →
      (q, b) ∈ acc ∨ ∃ t ∈ toks, acceptedAnchor imgW t = some (q, b) := by
  induction toks with
  | nil =>
    intro acc q b h
    exact Or.inl h
  | cons t ts ih =>
    intro acc q b h
    rw [List.foldl_cons] at h
    rcases ih _ q b h with hacc | ⟨t2, ht2, ha2⟩
    · rw [anchorStep_eq] at hacc
      cases hM : acceptedAnchor imgW t with
      | none =>
        rw [hM] at hacc
        exact Or.inl hacc
      | some qb =>
        rw [hM] at hacc
        dsimp only at hacc
        rcases mem_dictInsert hacc with hl | ⟨rfl, rfl⟩
        · exact Or.inl hl
        · exact Or.inr ⟨t, List.mem_cons_self _ _, by rw [hM]⟩
    · exact Or.inr ⟨t2, List.mem_cons_of_mem _ ht2, ha2⟩

theorem foldl_anchorStep_nodup (imgW : ℕ) (toks : List Token) :
    ∀ (acc : List (String × (ℕ × ℕ × ℕ × ℕ))),
      ((acc.map Prod.fst).Nodup) →
      (((toks.foldl (anchorStep imgW) acc).map Prod.fst).Nodup) := by
  induction toks with
  | nil => intro acc h; exact h
  | cons t ts ih =>
    intro acc h
    rw [List.foldl_cons]
    refine ih _ ?_
    rw [anchorStep_eq]
    cases acceptedAnchor imgW t with
    | none => exact h
    | some qb => exact nodup_keys_dictInsert h

/-- C8: every anchor accepted by the Anchor Locator has a question id in
the known rubric id set, recognizer confidence above 60 and an x position
strictly below `0.15 * width`; in particular `2 * x < width`, so a token
sitting at half the image width is never accepted, whatever its
confidence; and the returned map holds at most one box per question id. -/
theorem C8_anchor_invariants (imgW : ℕ) (toks : List Token) :
    ((find_text_anchors imgW toks).map Prod.fst).Nodup ∧
    ∀ q b, (q, b) ∈ find_text_anchors imgW toks →
      q ∈ rubricKeys ∧
      (b.1 : ℚ) < (imgW : ℚ) * (15 / 100) ∧
      2 * b.1 < imgW ∧
      ∃ t ∈ toks, matchAnchor (pyStrip t.text) = some q ∧ t.conf > 60 ∧
        b = (t.x, t.y, t.w, t.h) := by
  constructor
  · exact foldl_anchorStep_nodup imgW toks [] (by simp)
  · intro q b h
    rcases foldl_anchorStep_mem imgW toks [] q b h with hacc | ⟨t, ht, ha⟩
    · exact absurd hacc (List.not_mem_nil _)
    · obtain ⟨hm, hk, hc, hx, hb⟩ := acceptedAnchor_some ha
      have hx2 : (b.1 : ℚ) < (imgW : ℚ) * (15 / 100) := by
        rw [hb]
        exact hx
      have himgW : (0 : ℚ) ≤ (imgW : ℚ) := by positivity
      have h2x : ((2 * b.1 : ℕ) : ℚ) < (imgW : ℚ) := by
        push_cast
        linarith
      have h2xn : 2 * b.1 < imgW := by exact_mod_cast h2x
      exact ⟨hk, hx2, h2xn, t, ht, hm, hc, hb⟩

theorem foldl_anchorStep_lookup (imgW : ℕ) (toks : List Token) :
    ∀ (acc : List (String × (ℕ × ℕ × ℕ × ℕ))) (q : String),
      pyDictGet (toks.foldl (anchorStep imgW) acc) q =
        (match ((toks.filterMap (acceptedAnchor imgW)).filter
            (fun p => p.1 = q)).getLast? with
        | some p => some p.2
        | none => pyDictGet acc q) := by
  induction toks with
  | nil =>
    intro acc q
    rfl
  | cons t ts ih =>
    intro acc q
    rw [List.foldl_cons, anchorStep_eq]
    cases hM : acceptedAnchor imgW t with
    | none =>
      rw [List.filterMap_cons_none hM]
      exact ih acc q
    | some qb =>
      rw [List.filterMap_cons_some hM]
      dsimp only
      rw [List.filter_cons]
      by_cases hq : qb.1 = q
      · rw [if_pos (by simp [hq])]
        cases hL : (ts.filterMap (acceptedAnchor imgW)).filter (fun p => p.1 = q) with
        | nil =>
          rw [ih, hL]
          rw [pyDictGet_dictInsert, if_pos hq.symm]
          rfl
        | cons p ps =>
          rw [ih, hL, List.getLast?_cons_cons]
          cases hG : (p :: ps).getLast? with
          | none =>
            rw [List.getLast?_eq_none_iff] at hG
            exact absurd hG (by simp)
          | some r => rfl
      · rw [if_neg (by simp [hq])]
        rw [ih]
        cases hL : ((ts.filterMap (acceptedAnchor imgW)).filter (fun p => p.1 = q)).getLast? with
        | none =>
          dsimp only
          rw [pyDictGet_dictInsert, if_neg (fun hc => hq hc.symm)]
        | some p =>
          rfl

/-- Witness for C8 at a concrete token list: the token `1.` at
`x = 10` with confidence 80 on a 1000 px wide page is accepted, and the
invariants hold at it. -/
theorem C8_anchor_invariants_witness :
    ("1", ((10, 20, 30, 15) : ℕ × ℕ × ℕ × ℕ)) ∈
        find_text_anchors 1000 [⟨"1.", 80, 10, 20, 30, 15⟩] ∧
    ((10 : ℚ) < (1000 : ℚ) * (15 / 100)) ∧ 2 * 10 < 1000 :=
  ⟨by with_unfolding_all decide,
   ((C8_anchor_invariants 1000 [⟨"1.", 80, 10, 20, 30, 15⟩]).2 "1" (10, 20, 30, 15)
      (by with_unfolding_all decide)).2.1,
   ((C8_anchor_invariants 1000 [⟨"1.", 80, 10, 20, 30, 15⟩]).2 "1" (10, 20, 30, 15)
      (by with_unfolding_all decide)).2.2.1⟩

/-- C4 (amended): when several recognized tokens qualify as anchors for
the same question id, the Anchor Locator keeps the LAST accepted match:
the returned box for an id is the box of the last token accepted for it,
because the dict assignment of main.py line 396 overwrites the earlier
entry. -/
theorem C4_last_accepted_wins (imgW : ℕ) (toks : List Token) (q : String) :
    pyDictGet (find_text_anchors imgW toks) q =
      (((toks.filterMap (acceptedAnchor imgW)).filter
        (fun p => p.1 = q)).getLast?).map (fun p => p.2) := by
  unfold find_text_anchors
  rw [foldl_anchorStep_lookup]
  cases hG : ((toks.filterMap (acceptedAnchor imgW)).filter
      (fun p => p.1 = q)).getLast? with
  | none => rfl
  | some p => rfl

set_option maxRecDepth 4000 in
/-- C4 counterexample: two qualifying tokens for question 1 (confidences
80 then 90, boxes `(10, 20, 30, 15)` then `(40, 500, 30, 15)`, both inside
the left margin of a 1000 px page).  The locator returns the second box:
the first accepted match does not win. -/
theorem C4_counterexample :
    pyDictGet (find_text_anchors 1000
      [⟨"1.", 80, 10, 20, 30, 15⟩, ⟨"1.", 90, 40, 500, 30, 15⟩]) "1" =
      some (40, 500, 30, 15) ∧
    ((40, 500, 30, 15) : ℕ × ℕ × ℕ × ℕ) ≠ (10, 20, 30, 15) := by
  with_unfolding_all decide

/-! ## Grid locator lemmas -/

theorem groupMean_le {g : List ℕ} {b : ℕ} (h : ∀ a ∈ g, a ≤ b) : groupMean g ≤ b := by
  unfold groupMean
  cases g with
  | nil => simp
  | cons x xs =>
    apply Nat.div_le_of_le_mul
    calc (x :: xs).sum ≤ (x :: xs).length • b := List.sum_le_card_nsmul _ _ h
      _ = (x :: xs).length * b := smul_eq_mul ℕ

theorem exists_le_groupMean {g : List ℕ} (hne : g ≠ []) : ∃ a ∈ g, a ≤ groupMean g := by
  by_contra hc
  push_neg at hc
  have hlow : ∀ a ∈ g, groupMean g + 1 ≤ a := fun a ha => hc a ha
  have hsum : g.length • (groupMean g + 1) ≤ g.sum := List.card_nsmul_le_sum _ _ hlow
  have hpos : 0 < g.length := List.length_pos.mpr hne
  have hdiv : groupMean g + 1 ≤ g.sum / g.length := by
    rw [Nat.le_div_iff_mul_le hpos]
    calc (groupMean g + 1) * g.length = g.length • (groupMean g + 1) := by
          rw [smul_eq_mul, Nat.mul_comm]
      _ ≤ g.sum := hsum
  have : groupMean g + 1 ≤ groupMean g := hdiv
  omega

theorem groupAux_spec :
    ∀ (xs group : List ℕ) (last : ℕ), group ≠ [] →
      (∀ a ∈ group, a ≤ last) → List.Chain (· < ·) last xs →
      List.Chain' (fun a b => a + 15 ≤ b) (groupAux group last xs) ∧
      (∀ y ∈ groupAux group last xs, ∃ a ∈ group, a ≤ y) ∧
      groupAux group last xs ≠ [] := by
  intro xs
  induction xs with
  | nil =>
    intro group last hne hub _hch
    rw [groupAux]
    refine ⟨List.chain'_singleton _, ?_, by simp⟩
    intro y hy
    rcases List.mem_singleton.mp hy with rfl
    exact exists_le_groupMean hne
  | cons x xs2 ih =>
    intro group last hne hub hch
    rw [List.chain_cons] at hch
    obtain ⟨hlx, hch2⟩ := hch
    rw [groupAux]
    by_cases hgap : x - last < 15
    · rw [if_pos hgap]
      have hub2 : ∀ a ∈ group ++ [x], a ≤ x := by
        intro a ha
        rcases List.mem_append.mp ha with hg | hx
        · exact le_of_lt (lt_of_le_of_lt (hub a hg) hlx)
        · rcases List.mem_singleton.mp hx with rfl
          exact le_refl a
      obtain ⟨hc1, hc2, hc3⟩ := ih (group ++ [x]) x (by simp) hub2 hch2
      refine ⟨hc1, ?_, hc3⟩
      intro y hy
      rcases hc2 y hy with ⟨a, ha, hay⟩
      rcases List.mem_append.mp ha with hg | hx
      · exact ⟨a, hg, hay⟩
      · rcases List.mem_singleton.mp hx with rfl
        obtain ⟨g0, hg0⟩ := List.exists_mem_of_ne_nil group hne
        exact ⟨g0, hg0, le_trans (le_of_lt (lt_of_le_of_lt (hub g0 hg0) hlx)) hay⟩
    · rw [if_neg hgap]
      have hgap2 : last + 15 ≤ x := by omega
      obtain ⟨hc1, hc2, hc3⟩ := ih [x] x (by simp) (by simp) hch2
      have hmean : groupMean group ≤ last := groupMean_le hub
      refine ⟨?_, ?_, by simp⟩
      · rw [List.chain'_cons']
        refine ⟨?_, hc1⟩
        intro h hh
        have hhm : h ∈ groupAux [x] x xs2 := List.mem_of_mem_head? hh
        rcases hc2 h hhm with ⟨a, ha, hah⟩
        rcases List.mem_singleton.mp ha with rfl
        omega
      · intro y hy
        rcases List.mem_cons.mp hy with rfl | hy2
        · exact exists_le_groupMean hne
        · rcases hc2 y hy2 with ⟨a, ha, hay⟩
          rcases List.mem_singleton.mp ha with rfl
          obtain ⟨g0, hg0⟩ := List.exists_mem_of_ne_nil group hne
          have : g0 ≤ last := hub g0 hg0
          exact ⟨g0, hg0, by omega⟩

theorem chain'_gap_pairwise {l : List ℕ} (h : List.Chain' (fun a b => a + 15 ≤ b) l) :
    List.Pairwise (fun a b => a + 15 ≤ b) l := by
  induction l with
  | nil => exact List.Pairwise.nil
  | cons x xs ih =>
    rw [List.chain'_cons'] at h
    have hp := ih h.2
    rw [List.pairwise_cons]
    refine ⟨?_, hp⟩
    intro b hb
    cases xs with
    | nil => exact absurd hb (List.not_mem_nil b)
    | cons y ys =>
      have hxy : x + 15 ≤ y := h.1 y rfl
      rcases List.mem_cons.mp hb with rfl | hb2
      · exact hxy
      · have hyb := List.rel_of_pairwise_cons hp hb2
        omega

theorem uniqueLines_chain {idxs : List ℕ} (h : List.Pairwise (· < ·) idxs) :
    List.Chain' (fun a b => a + 15 ≤ b) (uniqueLines idxs) := by
  cases idxs with
  | nil => exact List.chain'_nil
  | cons x xs =>
    rw [uniqueLines]
    have hch : List.Chain (· < ·) x xs := List.chain_iff_pairwise.mpr h
    exact (groupAux_spec xs [x] x (by simp) (by simp) hch).1

/-- C9: every x coordinate returned by the Grid Line Locator is strictly
greater than `0.45 * width` (width = length of the column-sum profile),
the returned list is sorted ascending, and any two distinct returned
coordinates lie at least 15 pixels apart: raw detections within 15 px of
one another collapse into one line at their truncated mean position, and
the flushed means of consecutive groups stay at least 15 px apart. -/
theorem C9_grid_line_invariants (sums : List ℚ) (_hne : sums ≠ []) :
    (∀ x ∈ detect_vertical_grid_lines sums,
      (x : ℚ) > (sums.length : ℚ) * (45 / 100)) ∧
    List.Sorted (· ≤ ·) (detect_vertical_grid_lines sums) ∧
    (∀ a ∈ detect_vertical_grid_lines sums, ∀ b ∈ detect_vertical_grid_lines sums,
      a ≠ b → a + 15 ≤ b ∨ b + 15 ≤ a) := by
  unfold detect_vertical_grid_lines
  dsimp only
  by_cases hemp : (npWhereGt sums (npMaxQ sums * (3 / 10))).isEmpty
  · rw [if_pos hemp]
    refine ⟨fun x hx => absurd hx (List.not_mem_nil x), List.sorted_nil,
      fun a ha => absurd ha (List.not_mem_nil a)⟩
  · rw [if_neg hemp]
    set L := npWhereGt sums (npMaxQ sums * (3 / 10)) with hL
    set F := (uniqueLines L).filter
      (fun l : ℕ => (l : ℚ) > (sums.length : ℚ) * (45 / 100)) with hF
    have hperm : List.Perm (F.insertionSort (· ≤ ·)) F := List.perm_insertionSort _ _
    have hLpw : List.Pairwise (· < ·) L := by
      rw [hL]
      unfold npWhereGt
      exact (List.pairwise_lt_range _).sublist (List.filter_sublist _)
    have hchain := uniqueLines_chain hLpw
    have hpw : List.Pairwise (fun a b => a + 15 ≤ b) (uniqueLines L) :=
      chain'_gap_pairwise hchain
    have hpwF : List.Pairwise (fun a b => a + 15 ≤ b) F :=
      hpw.sublist (List.filter_sublist _)
    have hpwR : List.Pairwise (fun a b => a + 15 ≤ b ∨ b + 15 ≤ a) F :=
      hpwF.imp (fun h => Or.inl h)
    have hsymm : Symmetric (fun a b : ℕ => a + 15 ≤ b ∨ b + 15 ≤ a) := by
      intro a b hab
      rcases hab with h | h
      · exact Or.inr h
      · exact Or.inl h
    refine ⟨?_, List.sorted_insertionSort _ _, ?_⟩
    · intro x hx
      have hxF : x ∈ F := hperm.mem_iff.mp hx
      have := List.mem_filter.mp hxF
      simpa using this.2
    · intro a ha b hb hab
      have haF : a ∈ F := hperm.mem_iff.mp ha
      have hbF : b ∈ F := hperm.mem_iff.mp hb
      exact hpwR.forall hsymm haF hbF hab

set_option maxRecDepth 8000 in
/-- Witness for C9 at a concrete 20-column profile with one spike at
column 15: the locator returns `[15]` and the invariant holds there. -/
theorem C9_grid_line_invariants_witness :
    15 ∈ detect_vertical_grid_lines
      [0, 0, 0, 0, 0, 0, 0, 0, 0, 0, 0, 0, 0, 0, 0, 100, 0, 0, 0, 0] ∧
    ((15 : ℕ) : ℚ) >
      (([0, 0, 0, 0, 0, 0, 0, 0, 0, 0, 0, 0, 0, 0, 0, 100, 0, 0, 0, 0] :
        List ℚ).length : ℚ) * (45 / 100) :=
  ⟨by with_unfolding_all decide,
   (C9_grid_line_invariants
      [0, 0, 0, 0, 0, 0, 0, 0, 0, 0, 0, 0, 0, 0, 0, 100, 0, 0, 0, 0]
      (by with_unfolding_all decide)).1 15 (by with_unfolding_all decide)⟩

/-! ## Claim C6 -/

/-- C6 (amended): when the recognizer reports a nonzero skew angle of
magnitude below 15 degrees, the Geometric Normalizer returns the image
rotated by the negative of that angle on a SAME-SIZE canvas
(`reshape=False`, so the canvas is not expanded), with exposed background
filled with the background color 255; when the angle is zero or its
magnitude is at least 15, or orientation detection fails, the original
image is returned unchanged. -/
theorem C6_deskew_contract (image : ImgExpr) (osd : Option ℤ) :
    (osd = none → deskew image osd = image) ∧
    (∀ a : ℤ, osd = some a →
      ((a = 0 ∨ 15 ≤ a.natAbs) → deskew image osd = image) ∧
      (a ≠ 0 → a.natAbs < 15 →
        deskew image osd = ImgExpr.rot image (-a) false 255)) := by
  constructor
  · intro h
    rw [h]
    rfl
  · intro a ha
    rw [ha]
    constructor
    · intro hz
      unfold deskew
      dsimp only
      rw [if_neg]
      intro hc
      rcases hz with rfl | hge
      · exact hc.1 rfl
      · omega
    · intro hnz hlt
      unfold deskew
      dsimp only
      rw [if_pos ⟨hnz, hlt⟩]

/-- Witness for C6: a 6 degree report rotates back by −6 on the same
canvas; a zero report and a failed detection leave the image unchanged. -/
theorem C6_deskew_contract_witness :
    deskew (ImgExpr.src 50 80) (some 6) =
      ImgExpr.rot (ImgExpr.src 50 80) (-6) false 255 ∧
    deskew (ImgExpr.src 50 80) (some 0) = ImgExpr.src 50 80 ∧
    deskew (ImgExpr.src 50 80) none = ImgExpr.src 50 80 :=
  ⟨((C6_deskew_contract (ImgExpr.src 50 80) (some 6)).2 6 rfl).2 (by decide) (by decide),
   ((C6_deskew_contract (ImgExpr.src 50 80) (some 0)).2 0 rfl).1 (Or.inl rfl),
   (C6_deskew_contract (ImgExpr.src 50 80) none).1 rfl⟩

/-- C6 counterexample: on a 6 degree report the source rotates with
`reshape=False` (same-size canvas), but the claim demands a canvas
expanded as needed (a reshaping rotation): the two results differ. -/
theorem C6_counterexample :
    deskew (ImgExpr.src 100 100) (some 6) =
      ImgExpr.rot (ImgExpr.src 100 100) (-6) false 255 ∧
    deskew (ImgExpr.src 100 100) (some 6) ≠
      deskewClaimed (ImgExpr.src 100 100) (some 6) := by
  constructor
  · rfl
  · intro h
    have h2 : ImgExpr.rot (ImgExpr.src 100 100) (-6) false 255 =
        ImgExpr.rot (ImgExpr.src 100 100) (-6) true 255 := h
    simp at h2

/-! ## Claim C2: the page orchestrator -/

theorem process_fold (img : BinImg) (vlines : List ℕ) :
    ∀ (anchors : List (String × (ℕ × ℕ × ℕ × ℕ))) (acc : List (String × CellVal)) (tot : ℕ),
      anchors.foldl (fun acc2 qb =>
        (acc2.1 ++ [("Q" ++ qb.1 ++ "_Score",
            CellVal.sc (detect_score_with_grid img qb.2 vlines 1)),
          ("Q" ++ qb.1 ++ "_Text",
            CellVal.s (rubricText qb.1 (detect_score_with_grid img qb.2 vlines 1)))],
         acc2.2 + (detect_score_with_grid img qb.2 vlines 1).getD 0)) (acc, tot) =
      (acc ++ anchors.flatMap (fun qb =>
        [("Q" ++ qb.1 ++ "_Score",
            CellVal.sc (detect_score_with_grid img qb.2 vlines 1)),
         ("Q" ++ qb.1 ++ "_Text",
            CellVal.s (rubricText qb.1 (detect_score_with_grid img qb.2 vlines 1)))]),
       tot + (anchors.map
         (fun qb => (detect_score_with_grid img qb.2 vlines 1).getD 0)).sum) := by
  intro anchors
  induction anchors with
  | nil =>
    intro acc tot
    simp
  | cons a as ih =>
    intro acc tot
    rw [List.foldl_cons, ih, List.flatMap_cons, List.map_cons, List.sum_cons]
    rw [Prod.mk.injEq]
    constructor
    · rw [List.append_assoc]
    · omega

theorem process_valid_eq (p : PageInputs) (hv : p.valid = true) :
    process_rubric_page p =
      [("Advisor", CellVal.s p.advisorText),
       ("Advisor_Image_Path", CellVal.s p.advisorImgPath),
       ("Group_Name", CellVal.s p.groupText),
       ("Group_Name_Image_Path", CellVal.s p.groupImgPath)] ++
      p.anchors.flatMap (fun qb =>
        [("Q" ++ qb.1 ++ "_Score",
            CellVal.sc (detect_score_with_grid p.img qb.2 p.vlines 1)),
         ("Q" ++ qb.1 ++ "_Text",
            CellVal.s (rubricText qb.1 (detect_score_with_grid p.img qb.2 p.vlines 1)))]) ++
      [("Total_Score", CellVal.n ((p.anchors.map
        (fun qb => (detect_score_with_grid p.img qb.2 p.vlines 1).getD 0)).sum))] := by
  unfold process_rubric_page
  rw [if_neg (by simp [hv])]
  dsimp only
  rw [process_fold]
  rw [Nat.zero_add, List.append_assoc]

theorem qScoreKey_ne_fixed : ∀ q ∈ rubricKeys,
    ("Q" ++ q ++ "_Score") ≠ "Advisor" ∧
    ("Q" ++ q ++ "_Score") ≠ "Advisor_Image_Path" ∧
    ("Q" ++ q ++ "_Score") ≠ "Group_Name" ∧
    ("Q" ++ q ++ "_Score") ≠ "Group_Name_Image_Path" := by decide

theorem fixed_ne_qkeys : ∀ q ∈ rubricKeys,
    "Total_Score" ≠ ("Q" ++ q ++ "_Score") ∧ "Total_Score" ≠ ("Q" ++ q ++ "_Text") ∧
    "Comments_Image_Path" ≠ ("Q" ++ q ++ "_Score") ∧
    "Comments_Image_Path" ≠ ("Q" ++ q ++ "_Text") := by decide

theorem qScoreKey_inj : ∀ q ∈ rubricKeys, ∀ q2 ∈ rubricKeys,
    ("Q" ++ q ++ "_Score") = ("Q" ++ q2 ++ "_Score") → q = q2 := by decide

theorem qScoreKey_ne_text : ∀ q ∈ rubricKeys, ∀ q2 ∈ rubricKeys,
    ("Q" ++ q ++ "_Score") ≠ ("Q" ++ q2 ++ "_Text") := by decide

theorem nonNoneSum_map_getD (l : List (Option ℕ)) :
    nonNoneSum l = (l.map (fun o => o.getD 0)).sum := by
  induction l with
  | nil => rfl
  | cons o os ih =>
    cases o with
    | none =>
      have h1 : List.filterMap id (none :: os) = List.filterMap id os := rfl
      unfold nonNoneSum at ih ⊢
      rw [h1, ih]
      simp
    | some s =>
      have h1 : List.filterMap id (some s :: os) = s :: List.filterMap id os := rfl
      unfold nonNoneSum at ih ⊢
      rw [h1, List.sum_cons, ih]
      simp

theorem find?_flatMap_score (img : BinImg) (vlines : List ℕ) :
    ∀ (anchors : List (String × (ℕ × ℕ × ℕ × ℕ))) (q : String) (box : ℕ × ℕ × ℕ × ℕ),
      (q, box) ∈ anchors →
      ((anchors.map Prod.fst).Nodup) →
      (∀ q2 ∈ anchors.map Prod.fst, q2 ∈ rubricKeys) →
      (anchors.flatMap (fun qb =>
        [("Q" ++ qb.1 ++ "_Score",
            CellVal.sc (detect_score_with_grid img qb.2 vlines 1)),
         ("Q" ++ qb.1 ++ "_Text",
            CellVal.s (rubricText qb.1 (detect_score_with_grid img qb.2 vlines 1)))])).find?
          (fun e => e.1 = ("Q" ++ q ++ "_Score")) =
        some ("Q" ++ q ++ "_Score",
          CellVal.sc (detect_score_with_grid img box vlines 1)) := by
  intro anchors
  induction anchors with
  | nil =>
    intro q box hmem
    exact absurd hmem (List.not_mem_nil _)
  | cons a as ih =>
    intro q box hmem hnd hqk
    rw [List.map_cons, List.nodup_cons] at hnd
    have hk_a : a.1 ∈ rubricKeys := by
      refine hqk a.1 ?_
      rw [List.map_cons]
      exact List.mem_cons_self _ _
    rw [List.flatMap_cons]
    rcases List.mem_cons.mp hmem with heq | h2
    · have ha1 : a.1 = q := by rw [← heq]
      have ha2 : a.2 = box := by rw [← heq]
      rw [List.cons_append, List.find?_cons_of_pos _ (by simp [ha1])]
      rw [ha1, ha2]
    · have hk_q : q ∈ rubricKeys := by
        refine hqk q ?_
        rw [List.map_cons]
        exact List.mem_cons_of_mem _ (List.mem_map.mpr ⟨(q, box), h2, rfl⟩)
      have hne : a.1 ≠ q := by
        intro hc
        exact hnd.1 (hc ▸ List.mem_map.mpr ⟨(q, box), h2, rfl⟩)
      have hs : ¬ (("Q" ++ a.1 ++ "_Score") = ("Q" ++ q ++ "_Score")) :=
        fun hc => hne (qScoreKey_inj a.1 hk_a q hk_q hc)
      have ht : ¬ (("Q" ++ a.1 ++ "_Text") = ("Q" ++ q ++ "_Score")) :=
        fun hc => (qScoreKey_ne_text q hk_q a.1 hk_a) hc.symm
      rw [List.cons_append, List.find?_cons_of_neg _ (by simp [hs]),
        List.cons_append, List.find?_cons_of_neg _ (by simp [ht]), List.nil_append]
      refine ih q box h2 hnd.2 ?_
      intro q2 hq2
      refine hqk q2 ?_
      rw [List.map_cons]
      exact List.mem_cons_of_mem _ hq2

theorem find?_flatMap_fixed_none (img : BinImg) (vlines : List ℕ) (k : String)
    (hk : ∀ q ∈ rubricKeys, k ≠ ("Q" ++ q ++ "_Score") ∧ k ≠ ("Q" ++ q ++ "_Text")) :
    ∀ (anchors : List (String × (ℕ × ℕ × ℕ × ℕ))),
      (∀ q2 ∈ anchors.map Prod.fst, q2 ∈ rubricKeys) →
      (anchors.flatMap (fun qb =>
        [("Q" ++ qb.1 ++ "_Score",
            CellVal.sc (detect_score_with_grid img qb.2 vlines 1)),
         ("Q" ++ qb.1 ++ "_Text",
            CellVal.s (rubricText qb.1 (detect_score_with_grid img qb.2 vlines 1)))])).find?
          (fun e => e.1 = k) = none := by
  intro anchors hqk
  rw [List.find?_eq_none]
  intro x hx
  rcases List.mem_flatMap.mp hx with ⟨qb, hqb, hxe⟩
  have hkq : qb.1 ∈ rubricKeys := hqk qb.1 (List.mem_map.mpr ⟨qb, hqb, rfl⟩)
  rcases List.mem_cons.mp hxe with rfl | hxe2
  · simp
    exact fun hc => (hk qb.1 hkq).1 hc.symm
  · rcases List.mem_singleton.mp hxe2 with rfl
    simp
    exact fun hc => (hk qb.1 hkq).2 hc.symm

/-- C2 (amended): if validation succeeds, the Page Result records one
Score entry for each ANCHORED question, holding the scorer verdict
(an unresolved question is recorded explicitly with score none, never
silently omitted), a Total_Score equal to the sum of the non-none
question scores, and no comments entry; unanchored questions get no
entry at all.  If validation fails, the result is exactly one
comments-image record, mutually exclusive with all score and field
entries. -/
theorem C2_page_result (p : PageInputs)
    (hnd : (p.anchors.map Prod.fst).Nodup)
    (hqk : ∀ q2 ∈ p.anchors.map Prod.fst, q2 ∈ rubricKeys) :
    (p.valid = false →
      process_rubric_page p = [("Comments_Image_Path", CellVal.s p.commentsPath)]) ∧
    (p.valid = true →
      (∀ qb ∈ p.anchors,
        pyDictGet (process_rubric_page p) ("Q" ++ qb.1 ++ "_Score") =
          some (CellVal.sc (detect_score_with_grid p.img qb.2 p.vlines 1))) ∧
      pyDictGet (process_rubric_page p) "Total_Score" =
        some (CellVal.n (nonNoneSum (p.anchors.map
          (fun qb => detect_score_with_grid p.img qb.2 p.vlines 1)))) ∧
      pyDictGet (process_rubric_page p) "Comments_Image_Path" = none) := by
  constructor
  · intro hv
    unfold process_rubric_page
    rw [if_pos hv]
  · intro hv
    rw [process_valid_eq p hv]
    refine ⟨?_, ?_, ?_⟩
    · intro qb hqb
      have hkq : qb.1 ∈ rubricKeys := hqk qb.1 (List.mem_map.mpr ⟨qb, hqb, rfl⟩)
      obtain ⟨hb1, hb2, hb3, hb4⟩ := qScoreKey_ne_fixed qb.1 hkq
      unfold pyDictGet
      rw [List.find?_append]
      rw [List.find?_append]
      have hbase : List.find? (fun e => e.1 = ("Q" ++ qb.1 ++ "_Score"))
          [("Advisor", CellVal.s p.advisorText),
           ("Advisor_Image_Path", CellVal.s p.advisorImgPath),
           ("Group_Name", CellVal.s p.groupText),
           ("Group_Name_Image_Path", CellVal.s p.groupImgPath)] = none := by
        rw [List.find?_eq_none]
        intro x hx
        simp only [List.mem_cons, List.not_mem_nil, or_false] at hx
        rcases hx with rfl | rfl | rfl | rfl
        · simp only [decide_eq_true_eq]
          exact fun hc => hb1 hc.symm
        · simp only [decide_eq_true_eq]
          exact fun hc => hb2 hc.symm
        · simp only [decide_eq_true_eq]
          exact fun hc => hb3 hc.symm
        · simp only [decide_eq_true_eq]
          exact fun hc => hb4 hc.symm
      rw [hbase]
      rw [Option.none_or]
      rw [find?_flatMap_score p.img p.vlines p.anchors qb.1 qb.2
        (by rw [Prod.mk.eta]; exact hqb) hnd hqk]
      rfl
    · have hTS : ∀ q ∈ rubricKeys,
          "Total_Score" ≠ ("Q" ++ q ++ "_Score") ∧
          "Total_Score" ≠ ("Q" ++ q ++ "_Text") :=
        fun q hq => ⟨(fixed_ne_qkeys q hq).1, (fixed_ne_qkeys q hq).2.1⟩
      unfold pyDictGet
      rw [List.find?_append]
      rw [List.find?_append]
      have hbase : List.find? (fun e => e.1 = "Total_Score")
          [("Advisor", CellVal.s p.advisorText),
           ("Advisor_Image_Path", CellVal.s p.advisorImgPath),
           ("Group_Name", CellVal.s p.groupText),
           ("Group_Name_Image_Path", CellVal.s p.groupImgPath)] = none := rfl
      rw [hbase]
      rw [Option.none_or]
      rw [find?_flatMap_fixed_none p.img p.vlines "Total_Score" hTS p.anchors hqk]
      rw [Option.none_or]
      have htot : List.find? (fun e => e.1 = "Total_Score")
          [("Total_Score", CellVal.n ((p.anchors.map
            (fun qb => (detect_score_with_grid p.img qb.2 p.vlines 1).getD 0)).sum))] =
          some ("Total_Score", CellVal.n ((p.anchors.map
            (fun qb => (detect_score_with_grid p.img qb.2 p.vlines 1).getD 0)).sum)) := rfl
      rw [htot]
      rw [nonNoneSum_map_getD, List.map_map]
      simp [Function.comp_def]
    · have hCI : ∀ q ∈ rubricKeys,
          "Comments_Image_Path" ≠ ("Q" ++ q ++ "_Score") ∧
          "Comments_Image_Path" ≠ ("Q" ++ q ++ "_Text") :=
        fun q hq => ⟨(fixed_ne_qkeys q hq).2.2.1, (fixed_ne_qkeys q hq).2.2.2⟩
      unfold pyDictGet
      rw [List.find?_append]
      rw [List.find?_append]
      have hbase : List.find? (fun e => e.1 = "Comments_Image_Path")
          [("Advisor", CellVal.s p.advisorText),
           ("Advisor_Image_Path", CellVal.s p.advisorImgPath),
           ("Group_Name", CellVal.s p.groupText),
           ("Group_Name_Image_Path", CellVal.s p.groupImgPath)] = none := rfl
      rw [hbase]
      rw [Option.none_or]
      rw [find?_flatMap_fixed_none p.img p.vlines "Comments_Image_Path" hCI p.anchors hqk]
      rw [Option.none_or]
      rfl

/-- C2 counterexample: a validated page whose anchor map is empty (no
question label was located) produces no Q1_Score entry at all: a question
without an anchor is silently absent, contradicting one Score Result per
each of the 11 rubric questions. -/
theorem C2_counterexample :
    (PageInputs.mk true "" "" "" "" "c" [] ⟨0, 0, fun _ _ => false⟩ []).valid = true ∧
    pyDictGet (process_rubric_page
      (PageInputs.mk true "" "" "" "" "c" [] ⟨0, 0, fun _ _ => false⟩ [])) "Q1_Score" =
      none := by
  with_unfolding_all decide

/-- Witness for C2 at a concrete validated page with one anchored
question: its score entry is present (here with the verdict none,
recorded explicitly) and no comments entry exists. -/
theorem C2_page_result_witness :
    pyDictGet (process_rubric_page
      (PageInputs.mk true "" "" "" "" "c" [("1", (0, 0, 0, 0))]
        ⟨0, 0, fun _ _ => false⟩ [])) "Q1_Score" =
      some (CellVal.sc (detect_score_with_grid ⟨0, 0, fun _ _ => false⟩ (0, 0, 0, 0) [] 1)) ∧
    pyDictGet (process_rubric_page
      (PageInputs.mk true "" "" "" "" "c" [("1", (0, 0, 0, 0))]
        ⟨0, 0, fun _ _ => false⟩ [])) "Comments_Image_Path" = none :=
  ⟨((C2_page_result (PageInputs.mk true "" "" "" "" "c" [("1", (0, 0, 0, 0))]
        ⟨0, 0, fun _ _ => false⟩ []) (by simp) (by decide)).2 rfl).1
      ("1", (0, 0, 0, 0)) (by decide),
   ((C2_page_result (PageInputs.mk true "" "" "" "" "c" [("1", (0, 0, 0, 0))]
        ⟨0, 0, fun _ _ => false⟩ []) (by simp) (by decide)).2 rfl).2.2⟩
